import Mathlib

/-!
Verification of the xMobu MotionBuilder plugin toolset against its
natural-language specification.  Each section shallowly embeds the data
model and operations of one Python module; theorems at the end of the file
settle the spec's claims about them.
-/

set_option maxRecDepth 4000

namespace XMobu

/-! ## Python string primitives

Executable embeddings of the Python `str` operations the tools rely on,
over lists of characters (ASCII-faithful).  `String.splitOn` from the Lean
library is defined by well-founded recursion and does not reduce inside the
kernel, so `str.split(sep)` gets a structurally recursive embedding here. -/
namespace Py

/-- `s.split(c)` for a one-character separator: no run collapsing, adjacent
separators and an empty string produce empty fields, and the result is never
empty (`''.split(c) == ['']`). -/
def splitChar (c : Char) : List Char → List (List Char)
  | [] => [[]]
  | x :: rest =>
      let r := splitChar c rest
      if x == c then [] :: r
      else
        match r with
        | [] => [[x]]
        | g :: gs => (x :: g) :: gs

/-- `s.split(c)` on strings. -/
def pySplit (s : String) (c : Char) : List String :=
  (splitChar c s.data).map fun g => ⟨g⟩


/-- The whitespace characters `str.strip()` and `str.split()` treat as
blanks (ASCII; 11 and 12 are vertical tab and form feed). -/
def isPySpace (c : Char) : Bool :=
  c == ' ' || c == '\t' || c == '\n' || c == '\r' || c == Char.ofNat 11 || c == Char.ofNat 12

/-- `s.strip()`: drop whitespace from both ends. -/
def stripChars (cs : List Char) : List Char :=
  ((cs.dropWhile isPySpace).reverse.dropWhile isPySpace).reverse

def pyStrip (s : String) : String := ⟨stripChars s.data⟩

/-- The digit grammar accepted by `int(str)` after sign and whitespace
handling: a nonempty digit sequence, where a single underscore may sit
between two digits. -/
def pyDigitsOk : List Char → Bool
  | [] => false
  | [c] => c.isDigit
  | c :: d :: cs =>
      if d == '_' then
        match cs with
        | [] => false
        | e :: cs2 => c.isDigit && pyDigitsOk (e :: cs2)
      else c.isDigit && pyDigitsOk (d :: cs)

/-- Numeric value of an accepted digit sequence (underscores ignored). -/
def pyDigitsVal (cs : List Char) : Nat :=
  (cs.filter fun c => c != '_').foldl (fun n c => 10 * n + (c.toNat - 48)) 0

/-- `int(str)`: strip whitespace, take an optional sign, then require the
digit grammar; `none` embeds the `ValueError`. -/
def pyInt (s : String) : Option Int :=
  match stripChars s.data with
  | '+' :: rest => if pyDigitsOk rest then some (Int.ofNat (pyDigitsVal rest)) else Option.none
  | '-' :: rest => if pyDigitsOk rest then some (-(Int.ofNat (pyDigitsVal rest))) else Option.none
  | rest => if pyDigitsOk rest then some (Int.ofNat (pyDigitsVal rest)) else Option.none

/-- `s.split()` with no separator: split on whitespace runs, no empty
fields.  `acc` holds the current field reversed. -/
def splitWsAux : List Char → List Char → List (List Char)
  | [], acc => if acc.isEmpty then [] else [acc.reverse]
  | c :: rest, acc =>
      if isPySpace c then
        if acc.isEmpty then splitWsAux rest [] else acc.reverse :: splitWsAux rest []
      else splitWsAux rest (c :: acc)

def pySplitWs (s : String) : List String :=
  (splitWsAux s.data []).map fun g => ⟨g⟩

/-- `s.startswith(t)`. -/
def pyStartsWith (s t : String) : Bool := t.data.isPrefixOf s.data

end Py

/-! ## core/config.py — `ConfigManager`

The configuration is a JSON-like value.  Python dicts are embedded as
association lists in insertion order (Python 3.7+ dicts preserve insertion
order and never hold duplicate keys; `assocSet` mirrors `d[k] = v`, which
overwrites in place or appends a fresh key at the end). -/
namespace Config

/-- A Python/JSON value as held by `ConfigManager._config`. -/
inductive PyVal where
  | null
  | bool (b : Bool)
  | int (n : Int)
  | str (s : String)
  | list (xs : List PyVal)
  | dict (entries : List (String × PyVal))
deriving Repr

/-- `d[k] = v` on a dict: overwrite the first (only) occurrence of `k`,
else append the new key at the end, as CPython dicts do. -/
def assocSet : List (String × PyVal) → String → PyVal → List (String × PyVal)
  | [], k, v => [(k, v)]
  | (k', v') :: rest, k, v =>
      if k' == k then (k', v) :: rest else (k', v') :: assocSet rest k v

/-- The loop of `ConfigManager.get`: walk `value = value[k]` through the
components, returning `default` as soon as the current value is not a dict
holding the component. -/
def getLoop : PyVal → List String → PyVal → PyVal
  | v, [], _ => v
  | .dict es, k :: ks, d =>
      match es.lookup k with
      | some v' => getLoop v' ks d
      | Option.none => d
  | _, _ :: _, d => d

/-- `ConfigManager.get(key, default)` (src/core/config.py:82-93):
`key.split('.')` then the component walk. -/
def configGet (config : PyVal) (key : String) (default : PyVal) : PyVal :=
  getLoop config (Py.pySplit key '.') default

/-- Spec-side path resolution: `some` leaf iff every component resolves
through nested dicts. -/
def resolvePath : PyVal → List String → Option PyVal
  | v, [] => some v
  | .dict es, k :: ks =>
      match es.lookup k with
      | some v' => resolvePath v' ks
      | Option.none => Option.none
  | _, _ :: _ => Option.none

/-- The loop of `ConfigManager.set` (src/core/config.py:95-105), operating on
the entries of the root dict.  Reaching an existing non-dict value at an
intermediate component raises `TypeError` in Python (`k not in config` on a
non-container, or item assignment on a non-dict); no mutation ever precedes
that raise, because the raise can only happen while the walk is still inside
pre-existing entries, so the exception is embedded as `Except.error` with the
config unchanged. -/
def setLoop : List (String × PyVal) → List String → PyVal → Except Unit (List (String × PyVal))
  | es, [], _ => .ok es
  | es, [k], v => .ok (assocSet es k v)
  | es, k :: ks, v =>
      match es.lookup k with
      | Option.none =>
          match setLoop [] ks v with
          | .ok sub => .ok (assocSet es k (.dict sub))
          | .error e => .error e
      | some (.dict sub) =>
          match setLoop sub ks v with
          | .ok sub' => .ok (assocSet es k (.dict sub'))
          | .error e => .error e
      | some _ => .error ()

/-- `ConfigManager.set(key, value)`: split the key and run the walk on the
root dict's entries. -/
def configSet (config : List (String × PyVal)) (key : String) (v : PyVal) :
    Except Unit (List (String × PyVal)) :=
  setLoop config (Py.pySplit key '.') v

/-- `true` iff every intermediate component of the path either resolves to a
dict or is absent (so `set` creates it); `false` iff some intermediate
component resolves to an existing non-dict value. -/
def setPathOk : List (String × PyVal) → List String → Bool
  | _, [] => true
  | _, [_] => true
  | es, k :: ks =>
      match es.lookup k with
      | Option.none => true
      | some (.dict sub) => setPathOk sub ks
      | some _ => false

end Config

/-! ## Scene model references

An `FBModel` stands for a host scene object: an opaque handle (`id` carries
object identity — two distinct host objects may well share `Name` and even
`LongName`, the host does not enforce uniqueness) with its display `Name`
and namespace-qualified `LongName`. -/
structure FBModel where
  id : Nat
  name : String
  longName : String
deriving DecidableEq, Repr

/-! ## src/mobu/tools/character/character_mapper_qt.py — `CharacterMapperDialog` -/
namespace CharacterMapperQt

/-- The slot names of `CHARACTER_SLOTS` (character_mapper_qt.py:41-83), in
source order; these are exactly the keys of `bone_mappings` after `load_ui`
populates it. -/
def characterSlots : List String :=
  ["Reference", "Hips", "Spine", "Spine1", "Spine2", "Spine3", "Spine4", "Spine5",
   "Spine6", "Spine7", "Spine8", "Spine9", "Neck", "Head",
   "LeftShoulder", "LeftArm", "LeftForeArm", "LeftHand",
   "RightShoulder", "RightArm", "RightForeArm", "RightHand",
   "LeftUpLeg", "LeftLeg", "LeftFoot",
   "RightUpLeg", "RightLeg", "RightFoot"]

/-- `required = ["Hips", "LeftUpLeg", "RightUpLeg", "Spine"]`
(character_mapper_qt.py:724, character_mapper.py:306). -/
def requiredSlots : List String := ["Hips", "LeftUpLeg", "RightUpLeg", "Spine"]

/-- A bone mapping: `bone_mappings[slot]` is a model or `None`.  Embedded as
a function on slot names (the dict's key set is fixed to `characterSlots`). -/
def BoneMapping : Type := String → Option FBModel

/-- `missing = [slot for slot in required if not self.bone_mappings.get(slot)]`
(character_mapper_qt.py:725): a model reference is always truthy, `None` is
falsy. -/
def missingRequired (bm : BoneMapping) : List String :=
  requiredSlots.filter fun s => (bm s).isNone

/-- Outcome of the required-bones guard of `on_create_character`
(character_mapper_qt.py:722-734): either abort with the warning listing the
missing slots before any `FBCharacter` is constructed, or fall through to
character creation. -/
inductive CreateOutcome where
  | abortMissing (missing : List String) (message : String)
  | proceed
deriving DecidableEq, Repr

/-- Steps 1 of `on_create_character`: check required bones and abort with
the enumerated missing list, else proceed to the host workflow. -/
def on_create_character (bm : BoneMapping) : CreateOutcome :=
  let missing := missingRequired bm
  if missing.isEmpty then .proceed
  else
    .abortMissing missing
      ("Please map these required bones:\n" ++ String.intercalate ", " missing ++
       "\n\nNote: Only Spine is required. Additional spine bones (Spine1-9) are optional.")

/-- `on_save_preset` (character_mapper_qt.py:854-888): for each slot of
`bone_mappings` (insertion order = `characterSlots`), a mapped model is
persisted as `slot -> model.LongName`; unmapped slots are skipped. -/
def savePresetMappings (bm : BoneMapping) : List (String × String) :=
  characterSlots.filterMap fun s => (bm s).map fun m => (s, m.longName)

/-- `_find_model_by_name` (character_mapper_qt.py:958-970): first model of
`all_models` whose `LongName` matches, else first whose `Name` matches,
else `None`. -/
def findModelByName (models : List FBModel) (n : String) : Option FBModel :=
  match models.find? fun m => m.longName == n with
  | some m => some m
  | Option.none => models.find? fun m => m.name == n

/-- `self.bone_mappings[slot_name] = model` on the dict (key already
present, so the function update is exact). -/
def updateMapping (bm : BoneMapping) (s : String) (m : FBModel) : BoneMapping :=
  fun t => if t == s then some m else bm t

/-- `on_clear_mapping` (character_mapper_qt.py:604-612): every slot reset
to `None`. -/
def clearedMapping : BoneMapping := fun _ => Option.none

/-- The mapping-application loop of `on_load_preset`
(character_mapper_qt.py:934-949): for each persisted `(slot, bone_name)`, if
the slot is a known key and the name resolves in the snapshot, assign it;
otherwise leave the slot as it was (a warning is logged and nothing else
happens). -/
def loadPresetFold (models : List FBModel) : BoneMapping → List (String × String) → BoneMapping
  | bm, [] => bm
  | bm, (s, n) :: rest =>
      let bm' :=
        if characterSlots.contains s then
          match findModelByName models n with
          | some m => updateMapping bm s m
          | Option.none => bm
        else bm
      loadPresetFold models bm' rest

/-- `on_load_preset` after the preset file is read: clear all mappings, then
apply the persisted mappings against the current snapshot. -/
def loadPreset (mappings : List (String × String)) (models : List FBModel) : BoneMapping :=
  loadPresetFold models clearedMapping mappings

/-- `apply_filter` (character_mapper_qt.py:451-467): lower-case the search
text; empty filter repaints every model name, otherwise exactly those whose
lower-cased name contains the filter, in snapshot order.  Lower-casing is
embedded per character (`Char.toLower`), and Python's substring test `in`
is contiguous-infix on the character lists. -/
def lowerChars (s : String) : List Char := s.data.map Char.toLower

def containsLower (filterText : List Char) (m : FBModel) : Bool :=
  decide (filterText <:+: lowerChars m.name)

def apply_filter (allModels : List FBModel) (searchText : String) : List String :=
  let filterText := lowerChars searchText
  if filterText.isEmpty then
    allModels.map fun m => m.name
  else
    (allModels.filter (containsLower filterText)).map fun m => m.name

end CharacterMapperQt

/-! ## src/mobu/tools/rigging/character_mapper.py — `CharacterMapperUI`
(legacy FBTool version).  Its `bone_mappings` holds object-name strings, so
the falsy test of `OnCharacterize` treats both a missing slot and an empty
name string as unmapped. -/
namespace RiggingMapper

/-- Python truthiness of `bone_mappings.get(slot)` when values are strings
(`None` and `''` are falsy). -/
def truthyName : Option String → Bool
  | Option.none => false
  | some s => !s.isEmpty

/-- `missing = [slot for slot in required if not self.bone_mappings.get(slot)]`
(character_mapper.py:307). -/
def missingRequired (bm : String → Option String) : List String :=
  CharacterMapperQt.requiredSlots.filter fun s => !truthyName (bm s)

/-- The required-bones guard of `OnCharacterize` (character_mapper.py:300-315):
abort with the enumerated missing list before `FBCharacter` is constructed,
else proceed. -/
def OnCharacterize (bm : String → Option String) : CharacterMapperQt.CreateOutcome :=
  let missing := missingRequired bm
  if missing.isEmpty then .proceed
  else
    .abortMissing missing
      ("Please map these required bones:\n" ++ String.intercalate ", " missing)

end RiggingMapper


/-! ## src/mobu/utils.py — `refresh_list_widget` and `SceneEventManager` -/
namespace MobuUtils

/-- One iteration of the cleanup loop of `refresh_list_widget`
(utils.py:669-672): at index `i`, delete `selected[i]` when it is not in
`models` (comparison is Python `==`, reference identity for host objects,
embedded as equality of `FBModel` handles). -/
def pruneStep (models sel : List FBModel) (i : Nat) : List FBModel :=
  if h : i < sel.length then
    if models.contains (sel.get ⟨i, h⟩) then sel else sel.eraseIdx i
  else sel

/-- `for i in range(len(selected) - 1, -1, -1)`: indices are visited from
the end down to 0; `pruneIter models sel n` runs the loop for indices
`n-1, n-2, ..., 0`. -/
def pruneIter (models : List FBModel) : List FBModel → Nat → List FBModel
  | sel, 0 => sel
  | sel, n + 1 => pruneIter models (pruneStep models sel n) n

/-- The whole cleanup loop over the remembered selection. -/
def pruneSelected (models sel : List FBModel) : List FBModel :=
  pruneIter models sel sel.length

/-- Observable result of `refresh_list_widget` (utils.py:583-686):
whether it returned `True`, the repainted list contents (`none` when the
widget could not be found and the list was left untouched), and the
selection list after cleanup. -/
structure RefreshResult where
  success : Bool
  display : Option (List String)
  selected : List FBModel
deriving DecidableEq, Repr

/-- `refresh_list_widget`: when the list widget resolves, clear it,
repaint every model name in snapshot order, prune the remembered selection
and return `True`; when `findChild` fails, log and return `False` with
nothing touched. -/
def refresh_list_widget (widgetFound : Bool) (models sel : List FBModel) : RefreshResult :=
  if widgetFound then
    { success := true
      display := some (models.map fun m => m.name)
      selected := pruneSelected models sel }
  else
    { success := false, display := Option.none, selected := sel }

/-- The five host notification channels `SceneEventManager` touches
(utils.py:397-529); each holds its attached callbacks in attach order.
Callbacks are opaque identities. -/
structure HostChannels where
  onFileNewCompleted : List Nat
  onFileOpenCompleted : List Nat
  onFileMerge : List Nat
  onFileSaveCompleted : List Nat
  onChange : List Nat
deriving DecidableEq, Repr

/-- `self._registered_callbacks` (utils.py:401-407). -/
structure Registered where
  file_new : List Nat
  file_open : List Nat
  file_merge : List Nat
  file_save : List Nat
  scene_change : List Nat
deriving DecidableEq, Repr

structure ManagerState where
  host : HostChannels
  reg : Registered
deriving DecidableEq, Repr

def initRegistered : Registered := ⟨[], [], [], [], []⟩

def initManager (h0 : HostChannels) : ManagerState := ⟨h0, initRegistered⟩

/-- One iteration of the event loop of `register_file_events`
(utils.py:429-441): known event names attach the callback and record it;
anything else is ignored. -/
def addFileEvent (st : ManagerState) (cb : Nat) (e : String) : ManagerState :=
  if e == "new" then
    { host := { st.host with onFileNewCompleted := st.host.onFileNewCompleted ++ [cb] }
      reg := { st.reg with file_new := st.reg.file_new ++ [cb] } }
  else if e == "open" then
    { host := { st.host with onFileOpenCompleted := st.host.onFileOpenCompleted ++ [cb] }
      reg := { st.reg with file_open := st.reg.file_open ++ [cb] } }
  else if e == "merge" then
    { host := { st.host with onFileMerge := st.host.onFileMerge ++ [cb] }
      reg := { st.reg with file_merge := st.reg.file_merge ++ [cb] } }
  else if e == "save" then
    { host := { st.host with onFileSaveCompleted := st.host.onFileSaveCompleted ++ [cb] }
      reg := { st.reg with file_save := st.reg.file_save ++ [cb] } }
  else st

/-- `register_file_events(callback, events)`; `events=None` defaults to all
four file events. -/
def register_file_events (st : ManagerState) (cb : Nat) (events : Option (List String)) :
    ManagerState :=
  (events.getD ["new", "open", "merge", "save"]).foldl (fun acc e => addFileEvent acc cb e) st

/-- `register_scene_changes(callback)` (utils.py:445-460). -/
def register_scene_changes (st : ManagerState) (cb : Nat) : ManagerState :=
  { host := { st.host with onChange := st.host.onChange ++ [cb] }
    reg := { st.reg with scene_change := st.reg.scene_change ++ [cb] } }

/-- `for cb in recorded: channel.Remove(cb)`: each `Remove` detaches the
first matching occurrence. -/
def removeEach (host : List Nat) (cbs : List Nat) : List Nat :=
  cbs.foldl (fun h cb => h.erase cb) host

/-- `unregister_file_events()` with no specific callback (utils.py:469-483),
returning the state and the trace of `Remove` calls it issued. -/
def unregister_file_events (st : ManagerState) : ManagerState × List (String × Nat) :=
  ({ host := { st.host with
        onFileNewCompleted := removeEach st.host.onFileNewCompleted st.reg.file_new
        onFileOpenCompleted := removeEach st.host.onFileOpenCompleted st.reg.file_open
        onFileMerge := removeEach st.host.onFileMerge st.reg.file_merge
        onFileSaveCompleted := removeEach st.host.onFileSaveCompleted st.reg.file_save }
     reg := { st.reg with file_new := [], file_open := [], file_merge := [], file_save := [] } },
   (st.reg.file_new.map fun cb => ("OnFileNewCompleted", cb)) ++
   (st.reg.file_open.map fun cb => ("OnFileOpenCompleted", cb)) ++
   (st.reg.file_merge.map fun cb => ("OnFileMerge", cb)) ++
   (st.reg.file_save.map fun cb => ("OnFileSaveCompleted", cb)))

/-- `unregister_scene_changes()` with no specific callback (utils.py:506-509). -/
def unregister_scene_changes (st : ManagerState) : ManagerState × List (String × Nat) :=
  ({ host := { st.host with onChange := removeEach st.host.onChange st.reg.scene_change }
     reg := { st.reg with scene_change := [] } },
   st.reg.scene_change.map fun cb => ("OnChange", cb))

/-- `unregister_all` (utils.py:515-529): file events first, then scene
changes; the trace concatenates the issued `Remove` calls. -/
def unregister_all (st : ManagerState) : ManagerState × List (String × Nat) :=
  let r1 := unregister_file_events st
  let r2 := unregister_scene_changes r1.1
  (r2.1, r1.2 ++ r2.2)

/-- A registration call on the manager. -/
inductive RegisterOp where
  | fileEvents (cb : Nat) (events : Option (List String))
  | sceneChanges (cb : Nat)

def applyOp (st : ManagerState) : RegisterOp → ManagerState
  | .fileEvents cb evs => register_file_events st cb evs
  | .sceneChanges cb => register_scene_changes st cb

def applyOps (st : ManagerState) : List RegisterOp → ManagerState
  | [] => st
  | op :: rest => applyOps (applyOp st op) rest

/-- Host/record synchronization: every channel of the host holds the
initial callbacks followed by exactly the ones this manager recorded. -/
def RegInv (h0 : HostChannels) (st : ManagerState) : Prop :=
  st.host.onFileNewCompleted = h0.onFileNewCompleted ++ st.reg.file_new ∧
  st.host.onFileOpenCompleted = h0.onFileOpenCompleted ++ st.reg.file_open ∧
  st.host.onFileMerge = h0.onFileMerge ++ st.reg.file_merge ∧
  st.host.onFileSaveCompleted = h0.onFileSaveCompleted ++ st.reg.file_save ∧
  st.host.onChange = h0.onChange ++ st.reg.scene_change

end MobuUtils

/-! ## src/mobu/tools/animation/anim_exporter.py — `AddAnimationDialog` -/
namespace AnimExporter

/-- The record stored in `self.animation_data` on acceptance
(anim_exporter.py:479-486). -/
structure AnimData where
  name : String
  take : String
  start_frame : Int
  end_frame : Int
  nspace : String
  path : String
deriving DecidableEq, Repr

inductive AcceptResult where
  | rejectName
  | rejectParse
  | rejectRange
  | accepted (d : AnimData)
deriving DecidableEq, Repr

/-- `AddAnimationDialog.on_accept` (anim_exporter.py:456-488): empty
(stripped) name rejects; then both frame fields must parse as `int` (a
`ValueError` on either rejects); then `end_frame <= start_frame` rejects;
otherwise `animation_data` is filled and the dialog accepts. -/
def on_accept (name startText endText takeText nsText pathText : String) : AcceptResult :=
  if (Py.pyStrip name).isEmpty then .rejectName
  else
    match Py.pyInt startText with
    | Option.none => .rejectParse
    | some s =>
        match Py.pyInt endText with
        | Option.none => .rejectParse
        | some e =>
            if e ≤ s then .rejectRange
            else
              .accepted
                ⟨Py.pyStrip name, Py.pyStrip takeText, s, e, Py.pyStrip nsText,
                 Py.pyStrip pathText⟩

/-- `true` on the three early-`return` paths of `on_accept`. -/
def isRejection : AcceptResult → Bool
  | .accepted _ => false
  | _ => true

/-- Dialog state touched by `on_accept`: `animation_data` (initially `None`,
anim_exporter.py:317) and whether `self.accept()` ran. -/
structure DialogState where
  animation_data : Option AnimData
  accepted : Bool
deriving DecidableEq, Repr

/-- `on_accept` as a state transition: every rejection path `return`s before
touching `animation_data` or calling `accept()`. -/
def run_on_accept (st : DialogState)
    (name startText endText takeText nsText pathText : String) : DialogState :=
  match on_accept name startText endText takeText nsText pathText with
  | .accepted d => ⟨some d, true⟩
  | _ => st

end AnimExporter

/-! ## src/mobu/tools/pipeline/settings_qt.py — `SettingsDialog.load_workspaces` -/
namespace SettingsQt

/-- Outcome of the single `subprocess.run` call of `load_workspaces`
(settings_qt.py:230-236): the binary may be missing (`FileNotFoundError`),
the 10s timeout may fire (`TimeoutExpired`), or the process exits with a
code, stdout and stderr. -/
inductive P4Outcome where
  | notFound
  | timeout
  | exited (returncode : Int) (stdout : String) (stderr : String)

/-- Observable result: the status label text, the items added to the
workspace list widget after it is cleared, and the `self.workspaces`
assignment (`none` = attribute not assigned). -/
structure LoadResult where
  statusLabel : String
  listItems : List String
  workspaces : Option (List String)
deriving DecidableEq, Repr

/-- The parsing loop over `result.stdout.strip().split('\n')`
(settings_qt.py:239-244): a line starting with `"Client "` contributes its
second whitespace-separated token, when it has one. -/
def parse_workspaces (stdout : String) : List String :=
  (Py.pySplit (Py.pyStrip stdout) '\n').foldl
    (fun ws line =>
      if Py.pyStartsWith line "Client " then
        match Py.pySplitWs line with
        | _ :: w :: _ => ws ++ [w]
        | _ => ws
      else ws)
    []

/-- `load_workspaces` after the clear, by subprocess outcome
(settings_qt.py:238-278). -/
def load_workspaces : P4Outcome → LoadResult
  | .notFound =>
      ⟨"Status: P4 CLI not installed", ["(P4 command not found)"], Option.none⟩
  | .timeout =>
      ⟨"Status: Connection timeout", ["(Connection timeout)"], Option.none⟩
  | .exited rc out err =>
      if rc == 0 then
        let ws := parse_workspaces out
        if ws.isEmpty then
          ⟨"Status: No workspaces found", ["(No workspaces found)"], Option.none⟩
        else
          ⟨"Status: Found " ++ toString ws.length ++ " workspace(s)", ws, some ws⟩
      else
        let msg := if err.isEmpty then "Unknown error" else Py.pyStrip err
        ⟨"Status: Error - " ++ String.mk (msg.data.take 30) ++ "...",
         ["(Error loading workspaces)"], Option.none⟩

/-- One call of `load_workspaces` against an oracle of subprocess outcomes:
the body invokes `subprocess.run` exactly once, so only the first outcome is
consumed. -/
def load_workspaces_from (oracle : Nat → P4Outcome) : LoadResult :=
  load_workspaces (oracle 0)

/-- Spec-side parse: exactly the second token of each line starting with
`"Client "`. -/
def workspacesSpec (stdout : String) : List String :=
  (Py.pySplit (Py.pyStrip stdout) '\n').filterMap fun line =>
    if Py.pyStartsWith line "Client " then (Py.pySplitWs line).get? 1 else Option.none

end SettingsQt

/-! ## src/mobu/utils/scene_monitor.py — `SceneMonitor` -/
namespace SceneMonitor

/-- A scene component as `scan_scene` sees it: it may or may not expose a
`Name` attribute. -/
structure Component where
  hasName : Bool
  name : String
deriving DecidableEq, Repr

/-- Monitor state after a scan: `scene_objects`, the `namespaces` set and
`has_objects` (scene_monitor.py:13-18). -/
structure MonitorState where
  scene_objects : List Component
  namespaces : Finset String
  has_objects : Bool

/-- `name.split(':')[0]`: the prefix of the name before its first colon. -/
def nsOfName (name : String) : String := ⟨name.data.takeWhile fun c => c != ':'⟩

/-- The component loop of `scan_scene` (scene_monitor.py:121-132): every
component with a `Name` is appended to `scene_objects`, and when the name
holds a colon the text before the first colon joins the `namespaces` set. -/
def scanLoop : List Component → List Component → Finset String →
    List Component × Finset String
  | [], objs, ns => (objs, ns)
  | c :: rest, objs, ns =>
      if c.hasName then
        scanLoop rest (objs ++ [c])
          (if c.name.contains ':' then insert (nsOfName c.name) ns else ns)
      else scanLoop rest objs ns

/-- `scan_scene` (scene_monitor.py:108-150): reset the tracking state, run
the loop, then set `has_objects` from the object count. -/
def scan_scene (components : List Component) : MonitorState :=
  let r := scanLoop components [] ∅
  { scene_objects := r.1, namespaces := r.2, has_objects := decide (0 < r.1.length) }

/-- `on_file_new` / `on_file_open` / `on_file_merge`
(scene_monitor.py:93-106): each handler rescans the scene. -/
def on_file_new (components : List Component) : MonitorState := scan_scene components

def on_file_open (components : List Component) : MonitorState := scan_scene components

def on_file_merge (components : List Component) : MonitorState := scan_scene components

/-- `get_namespaces` (scene_monitor.py:165-167): `sorted(self.namespaces)`,
Python string order being lexicographic on code points. -/
def get_namespaces (st : MonitorState) : List String :=
  st.namespaces.sort (· ≤ ·)

end SceneMonitor

/-! # Theorems

Lemmas and the claim theorems, over the embeddings above. -/

namespace Py

theorem splitChar_ne_nil (c : Char) (cs : List Char) : splitChar c cs ≠ [] := by
  cases cs with
  | nil => simp [splitChar]
  | cons x rest =>
      simp only [splitChar]
      split
      · simp
      · split <;> simp

theorem pySplit_ne_nil (s : String) (c : Char) : pySplit s c ≠ [] := by
  unfold pySplit
  intro h
  exact splitChar_ne_nil c s.data (by simpa using h)

end Py

namespace Config

theorem getLoop_eq_resolvePath (ks : List String) :
    ∀ (v : PyVal) (d : PyVal), getLoop v ks d = (resolvePath v ks).getD d := by
  induction ks with
  | nil => intro v d; cases v <;> rfl
  | cons k ks ih =>
      intro v d
      cases v with
      | dict es =>
          simp only [getLoop, resolvePath]
          cases es.lookup k with
          | none => rfl
          | some v' => exact ih v' d
      | null => rfl
      | bool b => rfl
      | int n => rfl
      | str s => rfl
      | list xs => rfl

theorem lookup_assocSet_self (es : List (String × PyVal)) (k : String) (v : PyVal) :
    (assocSet es k v).lookup k = some v := by
  induction es with
  | nil => simp [assocSet, List.lookup]
  | cons kv rest ih =>
      obtain ⟨k', v'⟩ := kv
      by_cases h : k' = k
      · subst h; simp [assocSet, List.lookup]
      · have hb : (k' == k) = false := by simp [h]
        have hb' : (k == k') = false := by
          simp [beq_eq_false_iff_ne]; exact fun hkk => h hkk.symm
        simp [assocSet, hb, List.lookup, hb', ih]

theorem setPathOk_nil_entries (ks : List String) : setPathOk [] ks = true := by
  match ks with
  | [] => rfl
  | [k] => rfl
  | k :: k' :: ks' => simp [setPathOk, List.lookup]

theorem setLoop_ok_of_setPathOk (ks : List String) (hne : ks ≠ []) :
    ∀ (es : List (String × PyVal)) (v d : PyVal), setPathOk es ks = true →
      ∃ es', setLoop es ks v = .ok es' ∧ getLoop (.dict es') ks d = v := by
  induction ks with
  | nil => exact absurd rfl hne
  | cons k ks ih =>
      intro es v d hok
      cases ks with
      | nil =>
          refine ⟨assocSet es k v, rfl, ?_⟩
          simp [getLoop, lookup_assocSet_self]
      | cons k' ks' =>
          simp only [setPathOk] at hok
          cases hlk : es.lookup k with
          | none =>
              obtain ⟨sub, hsub, hget⟩ :=
                ih (by simp) [] v d (setPathOk_nil_entries (k' :: ks'))
              refine ⟨assocSet es k (.dict sub), ?_, ?_⟩
              · simp only [setLoop, hlk, hsub]
              · simp [getLoop, lookup_assocSet_self]
                simpa [getLoop] using hget
          | some w =>
              rw [hlk] at hok
              cases w with
              | dict sub =>
                  obtain ⟨sub', hsub', hget⟩ := ih (by simp) sub v d hok
                  refine ⟨assocSet es k (.dict sub'), ?_, ?_⟩
                  · simp only [setLoop, hlk, hsub']
                  · simp [getLoop, lookup_assocSet_self]
                    simpa [getLoop] using hget
              | null => simp at hok
              | bool b => simp at hok
              | int n => simp at hok
              | str s => simp at hok
              | list xs => simp at hok

theorem setLoop_error_of_not_setPathOk (ks : List String) :
    ∀ (es : List (String × PyVal)) (v : PyVal), setPathOk es ks = false →
      setLoop es ks v = .error () := by
  induction ks with
  | nil => intro es v h; simp [setPathOk] at h
  | cons k ks ih =>
      intro es v h
      cases ks with
      | nil => simp [setPathOk] at h
      | cons k' ks' =>
          simp only [setPathOk] at h
          cases hlk : es.lookup k with
          | none => rw [hlk] at h; simp at h
          | some w =>
              rw [hlk] at h
              cases w with
              | dict sub =>
                  have := ih sub v h
                  simp only [setLoop, hlk, this]
              | null => simp only [setLoop, hlk]
              | bool b => simp only [setLoop, hlk]
              | int n => simp only [setLoop, hlk]
              | str s => simp only [setLoop, hlk]
              | list xs => simp only [setLoop, hlk]

/-- C6: `ConfigManager.get(key, default)` returns the leaf value exactly when
every component of the dotted path resolves through nested dicts, and the
supplied default in every other case (missing component, or a non-dict met
before the path is exhausted).  `get` only reads `self._config`; the
embedding is a pure function of the config, so the config is unmodified. -/
theorem config_get_dotted_key (config : PyVal) (key : String) (default : PyVal) :
    (∀ v, resolvePath config (Py.pySplit key '.') = some v →
      configGet config key default = v) ∧
    (resolvePath config (Py.pySplit key '.') = Option.none →
      configGet config key default = default) := by
  constructor
  · intro v hv
    unfold configGet
    rw [getLoop_eq_resolvePath, hv]
    rfl
  · intro hv
    unfold configGet
    rw [getLoop_eq_resolvePath, hv]
    rfl

/-- Witness for C6 at a depth-3 config: the full path returns the leaf, a
missing final component returns the default, and a path through a non-dict
returns the default. -/
theorem config_get_dotted_key_witness :
    configGet (.dict [("a", .dict [("b", .dict [("c", .int 7)])])]) "a.b.c" .null = .int 7 ∧
    configGet (.dict [("a", .dict [("b", .dict [("c", .int 7)])])]) "a.b.z" (.str "d") = .str "d" ∧
    configGet (.dict [("a", .int 1)]) "a.b" (.str "d") = .str "d" :=
  ⟨(config_get_dotted_key (.dict [("a", .dict [("b", .dict [("c", .int 7)])])]) "a.b.c" .null).1
      (.int 7) rfl,
   (config_get_dotted_key (.dict [("a", .dict [("b", .dict [("c", .int 7)])])]) "a.b.z"
      (.str "d")).2 rfl,
   (config_get_dotted_key (.dict [("a", .int 1)]) "a.b" (.str "d")).2 rfl⟩

/-- C9: `get(key, default)` evaluated right after `set(key, value)` returns
`value` whenever every intermediate component of the dotted path resolves to
a dict or is absent; when some intermediate component resolves to an existing
non-dict value, `set` raises `TypeError` (embedded as `Except.error`) and the
config is left unchanged (no mutation precedes the raise, see `setLoop`). -/
theorem config_set_then_get (config : List (String × PyVal)) (key : String) (v default : PyVal) :
    (setPathOk config (Py.pySplit key '.') = true →
      ∃ config', configSet config key v = .ok config' ∧
        configGet (.dict config') key default = v) ∧
    (setPathOk config (Py.pySplit key '.') = false →
      configSet config key v = .error ()) := by
  constructor
  · intro hok
    obtain ⟨es', h1, h2⟩ :=
      setLoop_ok_of_setPathOk (Py.pySplit key '.') (Py.pySplit_ne_nil key '.') config v default hok
    exact ⟨es', h1, h2⟩
  · intro hbad
    exact setLoop_error_of_not_setPathOk (Py.pySplit key '.') config v hbad

/-- Witness for C9: a set through an absent intermediate followed by get
returns the written value, and a set through an existing non-dict
intermediate errors. -/
theorem config_set_then_get_witness :
    (∃ config', configSet [("a", .dict [("b", .int 1)])] "a.c.d" (.str "w") = .ok config' ∧
       configGet (.dict config') "a.c.d" .null = .str "w") ∧
    configSet [("a", .int 1)] "a.b" (.str "w") = .error () :=
  ⟨(config_set_then_get [("a", .dict [("b", .int 1)])] "a.c.d" (.str "w") .null).1 rfl,
   (config_set_then_get [("a", .int 1)] "a.b" (.str "w") .null).2 rfl⟩

end Config

namespace CharacterMapperQt

/-- C1: a characterization attempt (`on_create_character` in the Qt mapper,
`OnCharacterize` in the legacy mapper) with any of Hips, Spine, LeftUpLeg,
RightUpLeg unmapped aborts (never reaches character creation), and the list
enumerated in the warning is exactly the set of unmapped required slots:
membership in it is equivalent to being an unmapped required slot, so it is
never a superset or subset and never holds an optional slot. -/
theorem create_character_missing_required (bm : BoneMapping) (bmL : String → Option String)
    (h : ∃ s, s ∈ requiredSlots ∧ (bm s).isNone = true)
    (hL : ∃ s, s ∈ requiredSlots ∧ RiggingMapper.truthyName (bmL s) = false) :
    (∃ msg, on_create_character bm = .abortMissing (missingRequired bm) msg) ∧
    (∀ s, s ∈ missingRequired bm ↔ s ∈ requiredSlots ∧ (bm s).isNone = true) ∧
    (∃ msg, RiggingMapper.OnCharacterize bmL =
      .abortMissing (RiggingMapper.missingRequired bmL) msg) ∧
    (∀ s, s ∈ RiggingMapper.missingRequired bmL ↔
      s ∈ requiredSlots ∧ RiggingMapper.truthyName (bmL s) = false) := by
  obtain ⟨s0, hs0, hnone⟩ := h
  obtain ⟨s1, hs1, hfalse⟩ := hL
  have hmem : s0 ∈ missingRequired bm := by
    simp [missingRequired, List.mem_filter, hs0, hnone]
  have hmemL : s1 ∈ RiggingMapper.missingRequired bmL := by
    simp [RiggingMapper.missingRequired, List.mem_filter, hs1, hfalse]
  have hne : (missingRequired bm).isEmpty = false := by
    cases hm : missingRequired bm with
    | nil => rw [hm] at hmem; cases hmem
    | cons a l => rfl
  have hneL : (RiggingMapper.missingRequired bmL).isEmpty = false := by
    cases hm : RiggingMapper.missingRequired bmL with
    | nil => rw [hm] at hmemL; cases hmemL
    | cons a l => rfl
  have e1 : on_create_character bm = .abortMissing (missingRequired bm)
      ("Please map these required bones:\n" ++ String.intercalate ", " (missingRequired bm) ++
       "\n\nNote: Only Spine is required. Additional spine bones (Spine1-9) are optional.") := by
    simp [on_create_character, hne]
  have e2 : RiggingMapper.OnCharacterize bmL = .abortMissing (RiggingMapper.missingRequired bmL)
      ("Please map these required bones:\n" ++
       String.intercalate ", " (RiggingMapper.missingRequired bmL)) := by
    simp [RiggingMapper.OnCharacterize, hneL]
  refine ⟨⟨_, e1⟩, ?_, ⟨_, e2⟩, ?_⟩
  · intro s; simp [missingRequired, List.mem_filter]
  · intro s; simp [RiggingMapper.missingRequired, List.mem_filter]

/-- Witness for C1: with every slot unmapped, both mappers abort with their
enumerated missing lists. -/
theorem create_character_missing_required_witness :
    (∃ msg, on_create_character (fun _ => Option.none) =
      .abortMissing (missingRequired fun _ => Option.none) msg) ∧
    (∃ msg, RiggingMapper.OnCharacterize (fun _ => Option.none) =
      .abortMissing (RiggingMapper.missingRequired fun _ => Option.none) msg) :=
  ⟨(create_character_missing_required (fun _ => Option.none) (fun _ => Option.none)
      ⟨"Hips", by decide, rfl⟩ ⟨"Hips", by decide, rfl⟩).1,
   (create_character_missing_required (fun _ => Option.none) (fun _ => Option.none)
      ⟨"Hips", by decide, rfl⟩ ⟨"Hips", by decide, rfl⟩).2.2.1⟩

/-- C5: `apply_filter` displays exactly the models whose display name
contains the (lower-cased) filter text case-insensitively, in snapshot
order (the displayed list is a sublist of the full name list), and the
empty filter displays the full snapshot. -/
theorem apply_filter_spec (models : List FBModel) (txt : String) :
    (∀ n, n ∈ apply_filter models txt ↔
      ∃ m, m ∈ models ∧ m.name = n ∧ lowerChars txt <:+: lowerChars m.name) ∧
    (apply_filter models txt).Sublist (models.map fun m => m.name) ∧
    (txt = "" → apply_filter models txt = models.map fun m => m.name) := by
  have hcases : (lowerChars txt).isEmpty = true ∨ (lowerChars txt).isEmpty = false := by
    cases (lowerChars txt).isEmpty
    · exact Or.inr rfl
    · exact Or.inl rfl
  refine ⟨?_, ?_, ?_⟩
  · intro n
    rcases hcases with hf | hf
    · have hnil : lowerChars txt = [] := by
        cases he : lowerChars txt with
        | nil => rfl
        | cons a l => rw [he] at hf; cases hf
      rw [hnil]
      simp only [apply_filter, hf, if_true, List.mem_map]
      constructor
      · rintro ⟨m, hm, hname⟩
        exact ⟨m, hm, hname, List.nil_infix⟩
      · rintro ⟨m, hm, hname, _⟩
        exact ⟨m, hm, hname⟩
    · simp only [apply_filter, hf, Bool.false_eq_true, if_false, List.mem_map, List.mem_filter]
      constructor
      · rintro ⟨m, ⟨hm, hc⟩, hname⟩
        rw [containsLower, decide_eq_true_iff] at hc
        exact ⟨m, hm, hname, hc⟩
      · rintro ⟨m, hm, hname, hc⟩
        exact ⟨m, ⟨hm, by rw [containsLower, decide_eq_true_iff]; exact hc⟩, hname⟩
  · rcases hcases with hf | hf
    · simp [apply_filter, hf]
    · simp only [apply_filter, hf, Bool.false_eq_true, if_false]
      exact (List.filter_sublist models).map fun m => m.name
  · intro h
    subst h
    simp [apply_filter, lowerChars]

/-- Witness for C5: the empty filter repaints the two-model snapshot in
full, and a concrete filter keeps exactly the matching name. -/
theorem apply_filter_spec_witness :
    apply_filter [⟨1, "Hips", "Hips"⟩, ⟨2, "Spine", "Spine"⟩] "" = ["Hips", "Spine"] ∧
    ("Hips" ∈ apply_filter [⟨1, "Hips", "Hips"⟩, ⟨2, "Spine", "Spine"⟩] "hip" ↔
      ∃ m, m ∈ [(⟨1, "Hips", "Hips"⟩ : FBModel), ⟨2, "Spine", "Spine"⟩] ∧ m.name = "Hips" ∧
        lowerChars "hip" <:+: lowerChars m.name) :=
  ⟨(apply_filter_spec [⟨1, "Hips", "Hips"⟩, ⟨2, "Spine", "Spine"⟩] "").2.2 rfl,
   (apply_filter_spec [⟨1, "Hips", "Hips"⟩, ⟨2, "Spine", "Spine"⟩] "hip").1 "Hips"⟩

theorem characterSlots_nodup : characterSlots.Nodup := by decide

theorem lookup_eq_none_of_not_mem_keys {β : Type} (s : String) :
    ∀ (l : List (String × β)), s ∉ l.map Prod.fst → l.lookup s = Option.none := by
  intro l
  induction l with
  | nil => intro _; rfl
  | cons q qs ih =>
      intro hs
      obtain ⟨k, n⟩ := q
      have h1 : s ≠ k := by
        intro h; exact hs (by simp [h])
      have h2 : s ∉ qs.map Prod.fst := by
        intro h; exact hs (by simp [h])
      have hb : (s == k) = false := by simp [h1]
      simp [List.lookup, hb, ih h2]

theorem lookup_savePreset_not_mem (bm : BoneMapping) (s : String) :
    ∀ (l : List String), s ∉ l →
      ((l.filterMap fun t => (bm t).map fun m => (t, m.longName)).lookup s) = Option.none := by
  intro l
  induction l with
  | nil => intro _; rfl
  | cons t ts ih =>
      intro hs
      have hst : s ≠ t := fun h => hs (h ▸ List.mem_cons_self t ts)
      have hs' : s ∉ ts := fun h => hs (List.mem_cons_of_mem t h)
      cases hbt : bm t with
      | none => simpa [List.filterMap_cons, hbt] using ih hs'
      | some m =>
          have hbeq : (s == t) = false := by simp [hst]
          simp [List.filterMap_cons, hbt, List.lookup, hbeq, ih hs']

theorem lookup_savePresetAux (bm : BoneMapping) (s : String) :
    ∀ (l : List String), l.Nodup → s ∈ l →
      ((l.filterMap fun t => (bm t).map fun m => (t, m.longName)).lookup s) =
        (bm s).map fun m => m.longName := by
  intro l
  induction l with
  | nil => intro _ hs; cases hs
  | cons t ts ih =>
      intro hnd hs
      rcases List.mem_cons.mp hs with heq | hmem
      · subst heq
        have hnotin : s ∉ ts := (List.nodup_cons.mp hnd).1
        cases hbs : bm s with
        | none =>
            simpa [List.filterMap_cons, hbs] using lookup_savePreset_not_mem bm s ts hnotin
        | some m => simp [List.filterMap_cons, hbs, List.lookup]
      · have hst : s ≠ t := by
          intro h; subst h; exact (List.nodup_cons.mp hnd).1 hmem
        have hnd' : ts.Nodup := (List.nodup_cons.mp hnd).2
        cases hbt : bm t with
        | none => simpa [List.filterMap_cons, hbt] using ih hnd' hmem
        | some m =>
            have hbeq : (s == t) = false := by simp [hst]
            simp [List.filterMap_cons, hbt, List.lookup, hbeq, ih hnd' hmem]

theorem lookup_savePreset (bm : BoneMapping) (s : String) (hs : s ∈ characterSlots) :
    (savePresetMappings bm).lookup s = (bm s).map fun m => m.longName :=
  lookup_savePresetAux bm s characterSlots characterSlots_nodup hs

theorem savePreset_keys_sublist (bm : BoneMapping) :
    ∀ (l : List String),
      ((l.filterMap fun t => (bm t).map fun m => (t, m.longName)).map Prod.fst).Sublist l := by
  intro l
  induction l with
  | nil => exact List.Sublist.refl []
  | cons t ts ih =>
      cases hbt : bm t with
      | none =>
          simp only [List.filterMap_cons, hbt, Option.map_none']
          exact ih.cons t
      | some m =>
          simp only [List.filterMap_cons, hbt, Option.map_some', List.map_cons]
          exact ih.cons₂ t

theorem savePreset_keys_nodup (bm : BoneMapping) :
    ((savePresetMappings bm).map Prod.fst).Nodup :=
  (savePreset_keys_sublist bm characterSlots).nodup characterSlots_nodup

theorem savePreset_keys_known (bm : BoneMapping) :
    ∀ p ∈ savePresetMappings bm, characterSlots.contains p.1 = true := by
  intro p hp
  obtain ⟨t, ht, hf⟩ := List.mem_filterMap.mp hp
  cases hbt : bm t with
  | none => rw [hbt] at hf; cases hf
  | some m =>
      rw [hbt] at hf
      simp only [Option.map_some', Option.some_inj] at hf
      subst hf
      simpa [List.contains, List.elem_eq_mem] using ht

theorem loadPresetFold_lookup (models : List FBModel) :
    ∀ (preset : List (String × String)) (bm : BoneMapping) (s : String),
      (preset.map Prod.fst).Nodup →
      (∀ p ∈ preset, characterSlots.contains p.1 = true) →
      loadPresetFold models bm preset s =
        match preset.lookup s with
        | some n =>
            match findModelByName models n with
            | some m => some m
            | Option.none => bm s
        | Option.none => bm s := by
  intro preset
  induction preset with
  | nil => intro bm s _ _; rfl
  | cons p rest ih =>
      intro bm s hnd hknown
      obtain ⟨k, n⟩ := p
      have hkc : characterSlots.contains k = true := hknown (k, n) (List.mem_cons_self _ _)
      have hnd2 : (k :: rest.map Prod.fst).Nodup := by simpa using hnd
      have hnd' : (rest.map Prod.fst).Nodup := hnd2.of_cons
      have hknown' : ∀ p ∈ rest, characterSlots.contains p.1 = true :=
        fun p hp => hknown p (List.mem_cons_of_mem _ hp)
      by_cases hsk : s = k
      · subst hsk
        have hsnot : s ∉ rest.map Prod.fst := (List.nodup_cons.mp hnd2).1
        have hrest : rest.lookup s = Option.none := lookup_eq_none_of_not_mem_keys s rest hsnot
        have hbeq : (s == s) = true := by simp
        cases hfind : findModelByName models n with
        | some m =>
            simp only [loadPresetFold, hkc, if_true, hfind]
            rw [ih (updateMapping bm s m) s hnd' hknown']
            simp [hrest, List.lookup, hbeq, updateMapping, hfind]
        | none =>
            simp only [loadPresetFold, hkc, if_true, hfind]
            rw [ih bm s hnd' hknown']
            simp [hrest, List.lookup, hbeq, hfind]
      · have hbeq : (s == k) = false := by simp [hsk]
        cases hfind : findModelByName models n with
        | some m =>
            simp only [loadPresetFold, hkc, if_true, hfind]
            rw [ih (updateMapping bm k m) s hnd' hknown']
            have hupd : updateMapping bm k m s = bm s := by
              simp [updateMapping, hbeq]
            simp [List.lookup, hbeq, hupd]
        | none =>
            simp only [loadPresetFold, hkc, if_true, hfind]
            rw [ih bm s hnd' hknown']
            simp [List.lookup, hbeq]

/-- C2 (amended): loading a saved preset into a cleared mapping maps each
slot whose saved `LongName` resolves (first by `LongName`, then by `Name`)
to the FIRST matching model of the current snapshot; in particular it
reproduces the original mapping at every slot whose original model is still
in the snapshot and is the only model with its `LongName`, and it leaves a
slot unmapped when the slot was unmapped or its saved name does not
resolve. -/
theorem preset_round_trip_amended (bm : BoneMapping) (models : List FBModel) (s : String)
    (hs : s ∈ characterSlots) :
    (∀ m, bm s = some m →
      loadPreset (savePresetMappings bm) models s = findModelByName models m.longName) ∧
    (bm s = Option.none → loadPreset (savePresetMappings bm) models s = Option.none) ∧
    (∀ m, bm s = some m → m ∈ models →
      (∀ m', m' ∈ models → m'.longName = m.longName → m' = m) →
      loadPreset (savePresetMappings bm) models s = some m) := by
  have hbase := loadPresetFold_lookup models (savePresetMappings bm) clearedMapping s
      (savePreset_keys_nodup bm) (savePreset_keys_known bm)
  have hlook := lookup_savePreset bm s hs
  have hmain : ∀ m, bm s = some m →
      loadPreset (savePresetMappings bm) models s = findModelByName models m.longName := by
    intro m hm
    rw [loadPreset, hbase, hlook, hm]
    simp only [Option.map_some']
    cases hfind : findModelByName models m.longName with
    | some m' => rfl
    | none => rfl
  refine ⟨hmain, ?_, ?_⟩
  · intro hm
    rw [loadPreset, hbase, hlook, hm]
    rfl
  · intro m hm hmem huniq
    rw [hmain m hm]
    cases hfind : models.find? fun m' => m'.longName == m.longName with
    | some m' =>
        have hpred := List.find?_some hfind
        have hmem' := List.mem_of_find?_eq_some hfind
        have : m'.longName = m.longName := by simpa using hpred
        have : m' = m := huniq m' hmem' this
        subst this
        simp [findModelByName, hfind]
    | none =>
        exfalso
        have := List.find?_eq_none.mp hfind m hmem
        simp at this

/-- C2 counterexample: with two distinct scene objects sharing the
`LongName` "Cube", a mapping of Hips to the second one saves as
`Hips -> "Cube"`, the name still resolves at load time, yet the reload
maps Hips to the FIRST "Cube" model, not the original — the round trip
does not reproduce the original mapping even though the saved name
resolves. -/
theorem preset_round_trip_counterexample :
    ((fun s => if s == "Hips" then some (⟨1, "Cube", "Cube"⟩ : FBModel)
        else Option.none : BoneMapping) "Hips" = some (⟨1, "Cube", "Cube"⟩ : FBModel)) ∧
    (findModelByName [⟨2, "Cube", "Cube"⟩, ⟨1, "Cube", "Cube"⟩] "Cube").isSome = true ∧
    loadPreset
      (savePresetMappings (fun s => if s == "Hips" then some (⟨1, "Cube", "Cube"⟩ : FBModel)
        else Option.none))
      [⟨2, "Cube", "Cube"⟩, ⟨1, "Cube", "Cube"⟩] "Hips" = some (⟨2, "Cube", "Cube"⟩ : FBModel) ∧
    some (⟨2, "Cube", "Cube"⟩ : FBModel) ≠
      some (⟨1, "Cube", "Cube"⟩ : FBModel) := by
  refine ⟨rfl, rfl, ?_, by decide⟩
  decide

/-- Witness for C2 (amended) at a one-model snapshot with a unique
`LongName`: the round trip reproduces the mapping. -/
theorem preset_round_trip_amended_witness :
    loadPreset
      (savePresetMappings (fun s => if s == "Hips" then some (⟨3, "Root", "NS:Root"⟩ : FBModel)
        else Option.none))
      [⟨3, "Root", "NS:Root"⟩] "Hips" = some (⟨3, "Root", "NS:Root"⟩ : FBModel) :=
  (preset_round_trip_amended
      (fun s => if s == "Hips" then some (⟨3, "Root", "NS:Root"⟩ : FBModel) else Option.none)
      [⟨3, "Root", "NS:Root"⟩] "Hips" (by decide)).2.2
    ⟨3, "Root", "NS:Root"⟩ rfl (by decide) (by decide)

end CharacterMapperQt

namespace MobuUtils

theorem pruneIter_spec (models : List FBModel) :
    ∀ (n : Nat) (sel : List FBModel), n ≤ sel.length →
      pruneIter models sel n =
        (sel.take n).filter (fun m => models.contains m) ++ sel.drop n := by
  intro n
  induction n with
  | zero => intro sel _; simp [pruneIter]
  | succ n ih =>
      intro sel h
      have hlt : n < sel.length := h
      have hx : sel[n]? = some (sel.get ⟨n, hlt⟩) := by
        simp [List.getElem?_eq_getElem hlt]
      simp only [pruneIter, pruneStep, dif_pos hlt]
      cases hc : models.contains (sel.get ⟨n, hlt⟩) with
      | true =>
          rw [if_pos rfl]
          rw [ih sel (Nat.le_of_lt hlt)]
          rw [List.take_succ, hx]
          rw [List.filter_append]
          have hdrop := List.drop_eq_getElem_cons hlt
          simp only [Option.toList_some, List.filter_cons, List.filter_nil, hc]
          rw [hdrop]
          simp
      | false =>
          rw [if_neg (by simp [hc])]
          have hle : sel.length - 1 = sel.length - 1 := rfl
          have hlen : (sel.eraseIdx n).length = sel.length - 1 :=
            List.length_eraseIdx_of_lt hlt
          have hn : n ≤ (sel.eraseIdx n).length := by
            rw [hlen]; omega
          rw [ih (sel.eraseIdx n) hn]
          rw [List.eraseIdx_eq_take_drop_succ]
          have htl : (sel.take n).length = n := by
            rw [List.length_take]; omega
          rw [List.take_left' htl, List.drop_left' htl]
          rw [List.take_succ, hx]
          rw [List.filter_append]
          simp only [Option.toList_some, List.filter_cons, List.filter_nil, hc]
          simp

theorem pruneSelected_eq_filter (models sel : List FBModel) :
    pruneSelected models sel = sel.filter fun m => models.contains m := by
  unfold pruneSelected
  rw [pruneIter_spec models sel.length sel (Nat.le_refl _)]
  simp

/-- C3: whenever `refresh_list_widget` returns `True`, the pruned selection
is exactly the remembered selection filtered to references still present in
the snapshot (so it holds no stale reference, and the relative order of the
survivors is preserved: it is a sublist of the remembered selection), and
the repainted list shows exactly the snapshot's names in snapshot order. -/
theorem refresh_list_widget_spec (widgetFound : Bool) (models sel : List FBModel)
    (h : (refresh_list_widget widgetFound models sel).success = true) :
    (refresh_list_widget widgetFound models sel).selected =
      (sel.filter fun m => models.contains m) ∧
    (∀ m, m ∈ (refresh_list_widget widgetFound models sel).selected → m ∈ models) ∧
    ((refresh_list_widget widgetFound models sel).selected).Sublist sel ∧
    (refresh_list_widget widgetFound models sel).display =
      some (models.map fun m => m.name) := by
  cases widgetFound with
  | false => simp [refresh_list_widget] at h
  | true =>
      have hsel : (refresh_list_widget true models sel).selected =
          sel.filter fun m => models.contains m := by
        simp [refresh_list_widget, pruneSelected_eq_filter]
      refine ⟨hsel, ?_, ?_, ?_⟩
      · intro m hm
        rw [hsel] at hm
        have := List.of_mem_filter hm
        simpa [List.contains_iff_exists_mem_beq] using this
      · rw [hsel]; exact List.filter_sublist sel
      · simp [refresh_list_widget]

/-- Witness for C3 at a concrete snapshot/selection pair: the stale
reference (id 9) is pruned, the surviving references keep their order, and
the display shows the snapshot's names. -/
theorem refresh_list_widget_spec_witness :
    (refresh_list_widget true [⟨1, "A", "A"⟩, ⟨2, "B", "B"⟩, ⟨3, "C", "C"⟩]
        [⟨3, "C", "C"⟩, ⟨9, "Gone", "Gone"⟩, ⟨1, "A", "A"⟩]).selected =
      [⟨3, "C", "C"⟩, ⟨1, "A", "A"⟩] ∧
    (refresh_list_widget true [⟨1, "A", "A"⟩, ⟨2, "B", "B"⟩, ⟨3, "C", "C"⟩]
        [⟨3, "C", "C"⟩, ⟨9, "Gone", "Gone"⟩, ⟨1, "A", "A"⟩]).display =
      some ["A", "B", "C"] :=
  ⟨by
    rw [(refresh_list_widget_spec true [⟨1, "A", "A"⟩, ⟨2, "B", "B"⟩, ⟨3, "C", "C"⟩]
        [⟨3, "C", "C"⟩, ⟨9, "Gone", "Gone"⟩, ⟨1, "A", "A"⟩] rfl).1]
    decide,
   (refresh_list_widget_spec true [⟨1, "A", "A"⟩, ⟨2, "B", "B"⟩, ⟨3, "C", "C"⟩]
        [⟨3, "C", "C"⟩, ⟨9, "Gone", "Gone"⟩, ⟨1, "A", "A"⟩] rfl).2.2.2⟩

theorem removeEach_append_perm : ∀ (L h0 : List Nat), List.Perm (removeEach (h0 ++ L) L) h0 := by
  intro L
  induction L with
  | nil => intro h0; simp [removeEach]
  | cons cb L ih =>
      intro h0
      show List.Perm (removeEach ((h0 ++ cb :: L).erase cb) L) h0
      by_cases hcb : cb ∈ h0
      · rw [List.erase_append_left _ hcb]
        have hsplit : h0.erase cb ++ cb :: L = (h0.erase cb ++ [cb]) ++ L := by simp
        rw [hsplit]
        refine (ih (h0.erase cb ++ [cb])).trans ?_
        refine (List.perm_append_singleton _ _).trans ?_
        exact (List.perm_cons_erase hcb).symm
      · rw [List.erase_append_right _ hcb, List.erase_cons_head]
        exact ih h0

theorem addFileEvent_inv (h0 : HostChannels) (st : ManagerState) (cb : Nat) (e : String)
    (h : RegInv h0 st) : RegInv h0 (addFileEvent st cb e) := by
  obtain ⟨h1, h2, h3, h4, h5⟩ := h
  unfold addFileEvent
  split_ifs <;> exact ⟨by simp [h1, h2, h3, h4, h5], by simp [h1, h2, h3, h4, h5],
    by simp [h1, h2, h3, h4, h5], by simp [h1, h2, h3, h4, h5], by simp [h1, h2, h3, h4, h5]⟩

theorem register_file_events_inv (h0 : HostChannels) (cb : Nat) :
    ∀ (evs : List String) (st : ManagerState), RegInv h0 st →
      RegInv h0 (evs.foldl (fun acc e => addFileEvent acc cb e) st) := by
  intro evs
  induction evs with
  | nil => intro st h; exact h
  | cons e evs ih => intro st h; exact ih (addFileEvent st cb e) (addFileEvent_inv h0 st cb e h)

theorem register_scene_changes_inv (h0 : HostChannels) (st : ManagerState) (cb : Nat)
    (h : RegInv h0 st) : RegInv h0 (register_scene_changes st cb) := by
  obtain ⟨h1, h2, h3, h4, h5⟩ := h
  exact ⟨by simp [register_scene_changes, h1], by simp [register_scene_changes, h2],
    by simp [register_scene_changes, h3], by simp [register_scene_changes, h4],
    by simp [register_scene_changes, h5]⟩

theorem applyOps_inv (h0 : HostChannels) :
    ∀ (ops : List RegisterOp) (st : ManagerState), RegInv h0 st →
      RegInv h0 (applyOps st ops) := by
  intro ops
  induction ops with
  | nil => intro st h; exact h
  | cons op rest ih =>
      intro st h
      refine ih (applyOp st op) ?_
      cases op with
      | fileEvents cb evs => exact register_file_events_inv h0 cb _ st h
      | sceneChanges cb => exact register_scene_changes_inv h0 st cb h

theorem regInv_init (h0 : HostChannels) : RegInv h0 (initManager h0) := by
  refine ⟨?_, ?_, ?_, ?_, ?_⟩ <;> simp [initManager, initRegistered]

theorem unregister_all_of_init_reg (st : ManagerState) (h : st.reg = initRegistered) :
    unregister_all st = (st, []) := by
  obtain ⟨host, reg⟩ := st
  simp only [initRegistered] at h
  subst h
  rfl

/-- C7: after any sequence of `register_file_events` / `register_scene_changes`
calls on a fresh manager, one `unregister_all` empties the recorded-callbacks
table and detaches from every host channel exactly the callbacks this
manager attached (each channel is restored to a permutation of its initial
contents), and a second consecutive `unregister_all` is a no-op: it issues
no `Remove` call (empty trace) and leaves the state unchanged. -/
theorem unregister_all_idempotent (h0 : HostChannels) (ops : List RegisterOp) :
    ((unregister_all (applyOps (initManager h0) ops)).1.reg = initRegistered) ∧
    List.Perm ((unregister_all (applyOps (initManager h0) ops)).1.host.onFileNewCompleted)
      h0.onFileNewCompleted ∧
    List.Perm ((unregister_all (applyOps (initManager h0) ops)).1.host.onFileOpenCompleted)
      h0.onFileOpenCompleted ∧
    List.Perm ((unregister_all (applyOps (initManager h0) ops)).1.host.onFileMerge)
      h0.onFileMerge ∧
    List.Perm ((unregister_all (applyOps (initManager h0) ops)).1.host.onFileSaveCompleted)
      h0.onFileSaveCompleted ∧
    List.Perm ((unregister_all (applyOps (initManager h0) ops)).1.host.onChange)
      h0.onChange ∧
    (unregister_all ((unregister_all (applyOps (initManager h0) ops)).1) =
      ((unregister_all (applyOps (initManager h0) ops)).1, [])) := by
  have hinv := applyOps_inv h0 ops (initManager h0) (regInv_init h0)
  obtain ⟨h1, h2, h3, h4, h5⟩ := hinv
  have hreg : (unregister_all (applyOps (initManager h0) ops)).1.reg = initRegistered := rfl
  refine ⟨hreg, ?_, ?_, ?_, ?_, ?_, unregister_all_of_init_reg _ hreg⟩
  · show List.Perm
      (removeEach (applyOps (initManager h0) ops).host.onFileNewCompleted
        (applyOps (initManager h0) ops).reg.file_new) h0.onFileNewCompleted
    rw [h1]; exact removeEach_append_perm _ _
  · show List.Perm
      (removeEach (applyOps (initManager h0) ops).host.onFileOpenCompleted
        (applyOps (initManager h0) ops).reg.file_open) h0.onFileOpenCompleted
    rw [h2]; exact removeEach_append_perm _ _
  · show List.Perm
      (removeEach (applyOps (initManager h0) ops).host.onFileMerge
        (applyOps (initManager h0) ops).reg.file_merge) h0.onFileMerge
    rw [h3]; exact removeEach_append_perm _ _
  · show List.Perm
      (removeEach (applyOps (initManager h0) ops).host.onFileSaveCompleted
        (applyOps (initManager h0) ops).reg.file_save) h0.onFileSaveCompleted
    rw [h4]; exact removeEach_append_perm _ _
  · show List.Perm
      (removeEach (applyOps (initManager h0) ops).host.onChange
        (applyOps (initManager h0) ops).reg.scene_change) h0.onChange
    rw [h5]; exact removeEach_append_perm _ _

end MobuUtils

namespace AnimExporter

/-- C4: with a non-empty (stripped) animation name, `on_accept` accepts
exactly when both frame fields parse as Python ints and the parsed end
frame is strictly greater than the parsed start frame; every rejection
leaves the dialog state untouched (`animation_data` stays `None` and the
dialog is not accepted); and acceptance stores the parsed frames. -/
theorem add_animation_frame_validation
    (name startText endText takeText nsText pathText : String)
    (h : (Py.pyStrip name).isEmpty = false) :
    ((∃ d, on_accept name startText endText takeText nsText pathText = .accepted d) ↔
      (∃ a b, Py.pyInt startText = some a ∧ Py.pyInt endText = some b ∧ a < b)) ∧
    (∀ st : DialogState,
      isRejection (on_accept name startText endText takeText nsText pathText) = true →
      run_on_accept st name startText endText takeText nsText pathText = st) ∧
    (∀ a b, Py.pyInt startText = some a → Py.pyInt endText = some b → a < b →
      run_on_accept ⟨Option.none, false⟩ name startText endText takeText nsText pathText =
        ⟨some ⟨Py.pyStrip name, Py.pyStrip takeText, a, b, Py.pyStrip nsText,
          Py.pyStrip pathText⟩, true⟩) := by
  have hacc : ∀ a b, Py.pyInt startText = some a → Py.pyInt endText = some b → a < b →
      on_accept name startText endText takeText nsText pathText =
        .accepted ⟨Py.pyStrip name, Py.pyStrip takeText, a, b, Py.pyStrip nsText,
          Py.pyStrip pathText⟩ := by
    intro a b ha hb hab
    simp only [on_accept, h, Bool.false_eq_true, if_false, ha, hb]
    rw [if_neg (by omega : ¬b ≤ a)]
  refine ⟨⟨?_, ?_⟩, ?_, ?_⟩
  · rintro ⟨d, hd⟩
    cases hs : Py.pyInt startText with
    | none => simp [on_accept, h, hs] at hd
    | some a =>
        cases he : Py.pyInt endText with
        | none => simp [on_accept, h, hs, he] at hd
        | some b =>
            by_cases hle : b ≤ a
            · simp [on_accept, h, hs, he, hle] at hd
            · exact ⟨a, b, rfl, rfl, by omega⟩
  · rintro ⟨a, b, ha, hb, hab⟩
    exact ⟨_, hacc a b ha hb hab⟩
  · intro st hrej
    unfold run_on_accept
    cases hcase : on_accept name startText endText takeText nsText pathText with
    | accepted d => rw [hcase] at hrej; simp [isRejection] at hrej
    | rejectName => rfl
    | rejectParse => rfl
    | rejectRange => rfl
  · intro a b ha hb hab
    unfold run_on_accept
    rw [hacc a b ha hb hab]

/-- Witness for C4: the pair (0, 10) is accepted and stored; the pair
(10, 10) and a non-numeric start field are rejected with the state
untouched. -/
theorem add_animation_frame_validation_witness :
    run_on_accept ⟨Option.none, false⟩ "Walk" "0" "10" "Take 001" "" "" =
      ⟨some ⟨"Walk", "Take 001", 0, 10, "", ""⟩, true⟩ ∧
    run_on_accept ⟨Option.none, false⟩ "Walk" "10" "10" "" "" "" = ⟨Option.none, false⟩ ∧
    run_on_accept ⟨Option.none, false⟩ "Walk" "x" "10" "" "" "" = ⟨Option.none, false⟩ :=
  ⟨(add_animation_frame_validation "Walk" "0" "10" "Take 001" "" "" rfl).2.2
      0 10 rfl rfl (by decide),
   (add_animation_frame_validation "Walk" "10" "10" "" "" "" rfl).2.1
      ⟨Option.none, false⟩ rfl,
   (add_animation_frame_validation "Walk" "x" "10" "" "" "" rfl).2.1
      ⟨Option.none, false⟩ rfl⟩

end AnimExporter

namespace SettingsQt

theorem parse_foldl_eq :
    ∀ (lines : List String) (acc : List String),
      lines.foldl
        (fun ws line =>
          if Py.pyStartsWith line "Client " then
            match Py.pySplitWs line with
            | _ :: w :: _ => ws ++ [w]
            | _ => ws
          else ws) acc =
      acc ++ lines.filterMap (fun line =>
        if Py.pyStartsWith line "Client " then (Py.pySplitWs line).get? 1
        else Option.none) := by
  intro lines
  induction lines with
  | nil => intro acc; simp
  | cons line rest ih =>
      intro acc
      by_cases hc : Py.pyStartsWith line "Client " = true
      · cases hp : Py.pySplitWs line with
        | nil => simp [List.foldl_cons, hc, hp, ih, List.filterMap_cons]
        | cons x xs =>
            cases xs with
            | nil => simp [List.foldl_cons, hc, hp, ih, List.filterMap_cons]
            | cons w ws => simp [List.foldl_cons, hc, hp, ih, List.filterMap_cons]
      · simp [List.foldl_cons, hc, ih, List.filterMap_cons]

theorem parse_workspaces_eq (stdout : String) :
    parse_workspaces stdout = workspacesSpec stdout := by
  unfold parse_workspaces workspacesSpec
  rw [parse_foldl_eq]
  simp

theorem pyStartsWith_append (p rest : String) : Py.pyStartsWith (p ++ rest) p = true := by
  unfold Py.pyStartsWith
  have hd : (p ++ rest).data = p.data ++ rest.data := rfl
  rw [hd, List.isPrefixOf_iff_prefix]
  exact List.prefix_append _ _

theorem ne_of_pyStartsWith (a b p : String)
    (ha : Py.pyStartsWith a p = true) (hb : Py.pyStartsWith b p = false) : a ≠ b := by
  intro h
  rw [h, hb] at ha
  cases ha

/-- C8: the three failure modes of `load_workspaces` produce three pairwise
distinct status labels (binary missing, timeout, and the error label, which
always starts with its own distinct prefix); the function consumes only the
first subprocess outcome (no retry); and a successful exit parses exactly
the second token of each stdout line starting with `"Client "`, which (when
nonempty) becomes both the stored workspace list and the displayed items. -/
theorem load_workspaces_failure_modes :
    ((load_workspaces .notFound).statusLabel = "Status: P4 CLI not installed") ∧
    ((load_workspaces .timeout).statusLabel = "Status: Connection timeout") ∧
    ("Status: P4 CLI not installed" ≠ "Status: Connection timeout") ∧
    (∀ rc out err, rc ≠ 0 →
      Py.pyStartsWith (load_workspaces (.exited rc out err)).statusLabel
        "Status: Error - " = true ∧
      (load_workspaces (.exited rc out err)).statusLabel ≠
        (load_workspaces .notFound).statusLabel ∧
      (load_workspaces (.exited rc out err)).statusLabel ≠
        (load_workspaces .timeout).statusLabel) ∧
    (∀ o1 o2 : Nat → P4Outcome, o1 0 = o2 0 →
      load_workspaces_from o1 = load_workspaces_from o2) ∧
    (∀ out, parse_workspaces out = workspacesSpec out) ∧
    (∀ out err, parse_workspaces out ≠ [] →
      (load_workspaces (.exited 0 out err)).workspaces = some (parse_workspaces out) ∧
      (load_workspaces (.exited 0 out err)).listItems = parse_workspaces out) := by
  have herr : ∀ (rc : Int) (out err : String), rc ≠ 0 →
      (load_workspaces (.exited rc out err)).statusLabel =
        "Status: Error - " ++
          (String.mk (((if err.isEmpty then "Unknown error" else Py.pyStrip err)).data.take 30)
            ++ "...") := by
    intro rc out err h
    have hrc : (rc == 0) = false := by simpa using h
    simp only [load_workspaces, hrc, Bool.false_eq_true, if_false]
    have : ∀ (x y z : String), x ++ y ++ z = x ++ (y ++ z) := by
      intro x y z
      apply String.ext
      show (x.data ++ y.data) ++ z.data = x.data ++ (y.data ++ z.data)
      exact List.append_assoc _ _ _
    exact this _ _ _
  refine ⟨rfl, rfl, by decide, ?_, ?_, parse_workspaces_eq, ?_⟩
  · intro rc out err h
    have he := herr rc out err h
    have hstarts : Py.pyStartsWith (load_workspaces (.exited rc out err)).statusLabel
        "Status: Error - " = true := by
      rw [he]; exact pyStartsWith_append _ _
    refine ⟨hstarts, ?_, ?_⟩
    · exact ne_of_pyStartsWith _ _ _ hstarts (by decide)
    · exact ne_of_pyStartsWith _ _ _ hstarts (by decide)
  · intro o1 o2 h
    unfold load_workspaces_from
    rw [h]
  · intro out err hne
    have hws : (parse_workspaces out).isEmpty = false := by
      cases hp : parse_workspaces out with
      | nil => exact absurd hp hne
      | cons a l => rfl
    constructor
    · simp [load_workspaces, hws]
    · simp [load_workspaces, hws]

/-- Witness for C8: a non-zero exit with stderr text yields a label distinct
from the other two failure labels, and a concrete two-client stdout parses
to its two workspace names, stored and displayed. -/
theorem load_workspaces_failure_modes_witness :
    (load_workspaces (.exited 1 "" "boom")).statusLabel ≠ "Status: P4 CLI not installed" ∧
    (load_workspaces (.exited 1 "" "boom")).statusLabel ≠ "Status: Connection timeout" ∧
    (load_workspaces
        (.exited 0 "Client ws_one root /x\nClient ws_two root /y\nInfo done" "")).workspaces =
      some ["ws_one", "ws_two"] :=
  ⟨((load_workspaces_failure_modes.2.2.2.1 1 "" "boom" (by decide)).2.1).trans_eq rfl,
   ((load_workspaces_failure_modes.2.2.2.1 1 "" "boom" (by decide)).2.2).trans_eq rfl,
   ((load_workspaces_failure_modes.2.2.2.2.2.2
        "Client ws_one root /x\nClient ws_two root /y\nInfo done" "" (by decide)).1).trans
      (by decide)⟩

end SettingsQt

namespace SceneMonitor

theorem scanLoop_spec :
    ∀ (comps objs : List Component) (ns : Finset String),
      (scanLoop comps objs ns).1 = objs ++ comps.filter (fun c => c.hasName) ∧
      (∀ p, p ∈ (scanLoop comps objs ns).2 ↔
        p ∈ ns ∨ ∃ c, c ∈ comps ∧ c.hasName = true ∧ c.name.contains ':' = true ∧
          p = nsOfName c.name) := by
  intro comps
  induction comps with
  | nil =>
      intro objs ns
      constructor
      · simp [scanLoop]
      · intro p; simp [scanLoop]
  | cons c rest ih =>
      intro objs ns
      cases hc : c.hasName with
      | false =>
          have hrec := ih objs ns
          constructor
          · simp only [scanLoop, hc, Bool.false_eq_true, if_false]
            rw [hrec.1]
            simp [List.filter_cons, hc]
          · intro p
            simp only [scanLoop, hc, Bool.false_eq_true, if_false]
            rw [hrec.2 p]
            constructor
            · rintro (hp | ⟨c2, hc2, h2, h3, h4⟩)
              · exact Or.inl hp
              · exact Or.inr ⟨c2, List.mem_cons_of_mem _ hc2, h2, h3, h4⟩
            · rintro (hp | ⟨c2, hc2, h2, h3, h4⟩)
              · exact Or.inl hp
              · rcases List.mem_cons.mp hc2 with heq | hmem
                · subst heq; rw [hc] at h2; cases h2
                · exact Or.inr ⟨c2, hmem, h2, h3, h4⟩
      | true =>
          have hrec := ih (objs ++ [c])
            (if c.name.contains ':' then insert (nsOfName c.name) ns else ns)
          constructor
          · simp only [scanLoop, hc, if_true]
            rw [hrec.1]
            simp [List.filter_cons, hc]
          · intro p
            simp only [scanLoop, hc, if_true]
            rw [hrec.2 p]
            cases hcol : c.name.contains ':' with
            | true =>
                simp only [hcol, if_true, Finset.mem_insert]
                constructor
                · rintro ((hp | hp) | ⟨c2, hc2, h2, h3, h4⟩)
                  · exact Or.inr ⟨c, List.mem_cons_self _ _, hc, hcol, hp⟩
                  · exact Or.inl hp
                  · exact Or.inr ⟨c2, List.mem_cons_of_mem _ hc2, h2, h3, h4⟩
                · rintro (hp | ⟨c2, hc2, h2, h3, h4⟩)
                  · exact Or.inl (Or.inr hp)
                  · rcases List.mem_cons.mp hc2 with heq | hmem
                    · subst heq; exact Or.inl (Or.inl h4)
                    · exact Or.inr ⟨c2, hmem, h2, h3, h4⟩
            | false =>
                simp only [hcol, Bool.false_eq_true, if_false]
                constructor
                · rintro (hp | ⟨c2, hc2, h2, h3, h4⟩)
                  · exact Or.inl hp
                  · exact Or.inr ⟨c2, List.mem_cons_of_mem _ hc2, h2, h3, h4⟩
                · rintro (hp | ⟨c2, hc2, h2, h3, h4⟩)
                  · exact Or.inl hp
                  · rcases List.mem_cons.mp hc2 with heq | hmem
                    · subst heq; rw [hcol] at h3; cases h3
                    · exact Or.inr ⟨c2, hmem, h2, h3, h4⟩

/-- C10: after `scan_scene`, `scene_objects` is exactly the components
exposing a `Name` (in scene order), the `namespaces` set holds exactly the
prefixes before the first colon of those component names containing a
colon, `has_objects` holds iff the object count is positive, and
`get_namespaces` lists that set in sorted order; the file-new/open/merge
handlers each re-establish this state by rescanning. -/
theorem scan_scene_invariant (comps : List Component) :
    ((scan_scene comps).scene_objects = comps.filter fun c => c.hasName) ∧
    (∀ p, p ∈ (scan_scene comps).namespaces ↔
      ∃ c, c ∈ comps ∧ c.hasName = true ∧ c.name.contains ':' = true ∧
        p = nsOfName c.name) ∧
    ((scan_scene comps).has_objects = true ↔
      0 < (scan_scene comps).scene_objects.length) ∧
    List.Sorted (· ≤ ·) (get_namespaces (scan_scene comps)) ∧
    (∀ p, p ∈ get_namespaces (scan_scene comps) ↔ p ∈ (scan_scene comps).namespaces) ∧
    on_file_new comps = scan_scene comps ∧
    on_file_open comps = scan_scene comps ∧
    on_file_merge comps = scan_scene comps := by
  have hspec := scanLoop_spec comps [] ∅
  refine ⟨?_, ?_, ?_, ?_, ?_, rfl, rfl, rfl⟩
  · show (scanLoop comps [] ∅).1 = _
    rw [hspec.1]; rfl
  · intro p
    show p ∈ (scanLoop comps [] ∅).2 ↔ _
    rw [hspec.2 p]
    simp
  · show decide (0 < (scanLoop comps [] ∅).1.length) = true ↔ _
    simp [scan_scene]
  · exact Finset.sort_sorted _ _
  · intro p
    exact Finset.mem_sort _

end SceneMonitor

end XMobu
